import Mathlib

/-!
Shallow embedding of the dynamic SQL query-construction engine of the
azure-mcp repository (src/mcp_server/server.py) together with proofs of the
behavioural properties stated in its specification.

The embedding mirrors the Python source: JSON-decoded argument payloads
become JVal trees, Python dictionaries (whose iteration order is insertion
order) become association lists, f-string SQL assembly becomes explicit
string concatenation, and the database engine is abstracted by oracles
(execution outcomes per statement or per chunk).  Each tool is a pure
function returning its result together with the list of SQL statements it
sent to the engine, so that statements reaching the engine can be reasoned
about directly.
-/

namespace AzureMcp

/-- A JSON value, as produced by json.loads in the source. -/
inductive JVal where
  | str : String → JVal
  | int : Int → JVal
  | bool : Bool → JVal
  | null : JVal
  | arr : List JVal → JVal
  | obj : List (String × JVal) → JVal

mutual

/-- Structural equality test on JSON values. -/
def JVal.beq : JVal → JVal → Bool
  | .str a, .str b => a == b
  | .int a, .int b => a == b
  | .bool a, .bool b => a == b
  | .null, .null => true
  | .arr a, .arr b => JVal.beqList a b
  | .obj a, .obj b => JVal.beqObj a b
  | _, _ => false

def JVal.beqList : List JVal → List JVal → Bool
  | [], [] => true
  | x :: xs, y :: ys => JVal.beq x y && JVal.beqList xs ys
  | _, _ => false

def JVal.beqObj : List (String × JVal) → List (String × JVal) → Bool
  | [], [] => true
  | (k, x) :: xs, (l, y) :: ys => k == l && JVal.beq x y && JVal.beqObj xs ys
  | _, _ => false

end

instance : BEq JVal := ⟨JVal.beq⟩

/-- Python str.join over a list of fragments. -/
def joinWith (sep : String) : List String → String
  | [] => ""
  | [x] => x
  | x :: y :: rest => x ++ sep ++ joinWith sep (y :: rest)

/-- Decimal digit expansion with explicit fuel, so that evaluation on
concrete numerals is structural. -/
def decDigitsGo : Nat → Nat → List Nat
  | 0, n => [n]
  | fuel + 1, n => if n < 10 then [n] else decDigitsGo fuel (n / 10) ++ [n % 10]

/-- The decimal digits of a natural number, most significant first
(the rendering used by Python f-strings for non-negative integers). -/
def decDigits (n : Nat) : List Nat := decDigitsGo n n

/-- One decimal digit as a character. -/
def decChar : Nat → Char
  | 0 => '0'
  | 1 => '1'
  | 2 => '2'
  | 3 => '3'
  | 4 => '4'
  | 5 => '5'
  | 6 => '6'
  | 7 => '7'
  | 8 => '8'
  | _ => '9'

/-- Decimal rendering of a natural number. -/
def decStr (n : Nat) : String :=
  String.mk ((decDigits n).map decChar)

/-- Decimal rendering of a Python integer (possibly negative). -/
def intStr (i : Int) : String :=
  if i < 0 then "-" ++ decStr (-i).toNat else decStr i.toNat

/-- Value of a digit list (left fold, most significant first). -/
def decVal (ds : List Nat) : Nat :=
  ds.foldl (fun a d => a * 10 + d) 0

/-! ### The advanced_search filter compiler (server.py lines 444-514)

Python iterates the decoded filter object in insertion order; for each
column whose condition is itself an object, it iterates the operator-value
pairs, emitting one predicate fragment and binding parameters named
param1, param2, ... (one running counter across the whole compilation),
with an extra _j suffix per element for the in operator. -/

/-- Python str() rendering of a JSON value as used by f-string interpolation.
Array and object renderings are abbreviated; no tool property exercises them. -/
def jvalStr : JVal → String
  | .str s => s
  | .int i => intStr i
  | .bool true => "True"
  | .bool false => "False"
  | .null => "None"
  | .arr _ => "[...]"
  | .obj _ => "\x7b...\x7d"

/-- The like operator wraps the value in percent wildcard markers. -/
def likeWrap (v : JVal) : JVal :=
  .str ("%" ++ jvalStr v ++ "%")

/-- Python iteration over the value of an in condition: a list yields its
elements, a string yields its one-character substrings, an object yields its
keys, and anything else raises (the tool then reports a failure string and
sends nothing to the engine). -/
def inElems : JVal → Except String (List JVal)
  | .arr vs => .ok vs
  | .str s => .ok (s.data.map (fun c => JVal.str (String.mk [c])))
  | .obj kvs => .ok (kvs.map (fun kv => JVal.str kv.1))
  | _ => .error "object is not iterable"

/-- The placeholder name for the running parameter counter: param1, param2, ... -/
def pName (n : Nat) : String :=
  "param" ++ decStr n

/-- The placeholder name for element j of an in list under counter n. -/
def pInName (n j : Nat) : String :=
  pName n ++ "_" ++ decStr j

/-- The colon-led placeholder texts of an in clause. -/
def inPhs (paramName : String) (n : Nat) : List String :=
  (List.range n).map (fun j => ":" ++ paramName ++ "_" ++ decStr j)

/-- The parameter bindings of an in clause, one per element, in list order. -/
def inBinds (paramName : String) (elems : List JVal) : List (String × JVal) :=
  ((List.range elems.length).zip elems).map (fun p => (paramName ++ "_" ++ decStr p.1, p.2))

/-- Compilation of one operator-value pair: the predicate fragments to append
(empty for an unknown operator) and the parameters to bind. -/
def applyOp (column paramName op : String) (value : JVal) :
    Except String (List String × List (String × JVal)) :=
  if op = "like" then .ok ([column ++ " LIKE :" ++ paramName], [(paramName, likeWrap value)])
  else if op = "eq" then .ok ([column ++ " = :" ++ paramName], [(paramName, value)])
  else if op = "gt" then .ok ([column ++ " > :" ++ paramName], [(paramName, value)])
  else if op = "lt" then .ok ([column ++ " < :" ++ paramName], [(paramName, value)])
  else if op = "gte" then .ok ([column ++ " >= :" ++ paramName], [(paramName, value)])
  else if op = "lte" then .ok ([column ++ " <= :" ++ paramName], [(paramName, value)])
  else if op = "in" then
    match inElems value with
    | .error e => .error e
    | .ok elems =>
        .ok ([column ++ " IN (" ++ joinWith "," (inPhs paramName elems.length) ++ ")"],
          inBinds paramName elems)
  else .ok ([], [])

/-- The mutable compilation state of advanced_search: the fragment list, the
bound-parameter map (insertion order) and the running parameter counter. -/
structure CompState where
  whereClauses : List String
  params : List (String × JVal)
  paramCounter : Nat

/-- Compile the operator-value pairs of one column.  The counter advances on
every pair, including unknown operators. -/
def compileOps (column : String) : List (String × JVal) → CompState → Except String CompState
  | [], st => .ok st
  | (op, v) :: rest, st =>
    match applyOp column (pName st.paramCounter) op v with
    | .error e => .error e
    | .ok (cs, ps) =>
        compileOps column rest
          ⟨st.whereClauses ++ cs, st.params ++ ps, st.paramCounter + 1⟩

/-- Compile one filter entry; a condition that is not an object is skipped. -/
def compileEntry : (String × JVal) → CompState → Except String CompState
  | (column, .obj ops), st => compileOps column ops st
  | _, st => .ok st

/-- Compile a whole filter specification. -/
def compileFilters : List (String × JVal) → CompState → Except String CompState
  | [], st => .ok st
  | e :: rest, st =>
    match compileEntry e st with
    | .error err => .error err
    | .ok st2 => compileFilters rest st2

/-- The initial compilation state: no fragments, no parameters, counter 1. -/
def initComp : CompState := ⟨[], [], 1⟩

/-- The WHERE text: fragments joined by AND, or the always-true predicate. -/
def advWhereSql (st : CompState) : String :=
  if st.whereClauses.isEmpty then "1=1" else joinWith " AND " st.whereClauses

/-- The optional ORDER BY text. -/
def advOrderSql : Option String → String
  | some s => "ORDER BY " ++ s
  | none => ""

/-- Clamp a requested limit or page size into the range from 1 to the
operation-specific maximum: min(max(1, x), maxVal). -/
def clampTo (maxVal x : Int) : Int :=
  min (max 1 x) maxVal

/-- The single SELECT statement advanced_search builds.  Note: the table name
and the filter column names are spliced into the text without any check
against the schema. -/
def advSearchSql (table : String) (st : CompState) (sortBy : Option String) (limit : Int) :
    String :=
  "SELECT TOP " ++ intStr (clampTo 200 limit) ++ " * FROM " ++ table ++
    " WHERE " ++ advWhereSql st ++ " " ++ advOrderSql sortBy

/-- The SQL statements advanced_search sends to the engine.  A compilation
exception (a non-iterable in value) is caught by the tool and reported as a
failure string, so nothing executes; otherwise the compiled SELECT is
executed regardless of whether its identifiers exist in the schema. -/
def advSearchStmts (table : String) (filters : List (String × JVal)) (sortBy : Option String)
    (limit : Int) : List String :=
  match compileFilters filters initComp with
  | .error _ => []
  | .ok st => [advSearchSql table st sortBy limit]

/-- The tag of a placeholder name: the value of the running counter when the
compiler generated it. -/
def hasTag (name : String) (k : Nat) : Prop :=
  name = pName k ∨ ∃ j, name = pInName k j

/-- Invariant carried through a compilation: the parameter names collected so
far are pairwise distinct and each carries a tag below the running counter. -/
def TagInv (st : CompState) : Prop :=
  (st.params.map Prod.fst).Nodup ∧
    ∀ name ∈ st.params.map Prod.fst, ∃ k, 1 ≤ k ∧ k < st.paramCounter ∧ hasTag name k

/-- Modelled from the spec wording for comparison: a placeholder name of the
form column_operator_index, i.e. the column name, the operator and a decimal
index joined by single underscores. -/
def specFormName (column op name : String) : Bool :=
  let stem := column.data ++ '_' :: op.data ++ ['_']
  let nd := name.data
  (nd.take stem.length == stem) && !(nd.drop stem.length).isEmpty &&
    (nd.drop stem.length).all Char.isDigit

/-! ### Engine model for simple equality predicates

safe_update_record compiles WHERE and SET clauses of the shape
col = :where_col and col = :update_col; the engine is modelled on one table
as a list of rows. -/

/-- A table row: a mapping from column name to value, in column order. -/
abbrev Row := List (String × JVal)

/-- A single table of the backing database. -/
abbrev DB := List Row

/-- A row satisfies the conjunction of col = value conditions. -/
def rowMatches (wd : Row) (r : Row) : Bool :=
  wd.all (fun cv => r.lookup cv.1 == some cv.2)

/-- Engine semantics of the preview SELECT: the rows matching the predicate. -/
def selectWhere (db : DB) (wd : Row) : List Row :=
  db.filter (rowMatches wd)

/-- Overwrite one column of a row (SQL SET semantics). -/
def setCol : Row → String → JVal → Row
  | [], c, v => [(c, v)]
  | (c0, v0) :: rest, c, v =>
    if c0 = c then (c0, v) :: rest else (c0, v0) :: setCol rest c v

/-- Apply a SET clause to one row. -/
def applySet (ud : Row) (r : Row) : Row :=
  ud.foldl (fun r cv => setCol r cv.1 cv.2) r

/-- Engine semantics of the UPDATE statement: rewrite every matching row. -/
def updateWhere (db : DB) (wd ud : Row) : DB :=
  db.map (fun r => if rowMatches wd r then applySet ud r else r)

/-! ### safe_update_record (server.py lines 641-707) -/

/-- The WHERE text of safe_update_record: col = :where_col fragments ANDed. -/
def updWhereSql (wd : Row) : String :=
  joinWith " AND " (wd.map (fun cv => cv.1 ++ " = :where_" ++ cv.1))

/-- The bound parameters of the WHERE clause. -/
def updWhereParams (wd : Row) : Row :=
  wd.map (fun cv => ("where_" ++ cv.1, cv.2))

/-- The preview SELECT statement. -/
def previewSql (table : String) (wd : Row) : String :=
  "SELECT * FROM " ++ table ++ " WHERE " ++ updWhereSql wd

/-- The SET text: col = :update_col fragments joined by commas. -/
def updSetSql (ud : Row) : String :=
  joinWith ", " (ud.map (fun cv => cv.1 ++ " = :update_" ++ cv.1))

/-- The UPDATE statement. -/
def updateSqlOf (table : String) (ud wd : Row) : String :=
  "UPDATE " ++ table ++ " SET " ++ updSetSql ud ++ " WHERE " ++ updWhereSql wd

/-- Outcome of safe_update_record. -/
inductive UpdateResult where
  | noRecords (msg : String)
  | validated (count : Nat) (current : List Row) (updates : Row)
  | updated (rowsAffected : Nat)

/-- safe_update_record: run the preview SELECT first; stop with a message if
nothing matches; return the preview when validation only was requested;
otherwise execute the UPDATE and commit.  The triple returned is the result,
the database after the call, and the SQL statements sent to the engine in
execution order. -/
def safe_update_record (db : DB) (table : String) (wd ud : Row) (validate_only : Bool) :
    UpdateResult × DB × List String :=
  let affected := selectWhere db wd
  if affected.isEmpty then
    (.noRecords "No records found matching the WHERE conditions", db, [previewSql table wd])
  else if validate_only then
    (.validated affected.length affected ud, db, [previewSql table wd])
  else
    (.updated affected.length, updateWhere db wd ud,
      [previewSql table wd, updateSqlOf table ud wd])

/-! ### safe_insert_record (server.py lines 575-638) -/

/-- Outcome of safe_insert_record. -/
inductive InsertResult where
  | tableNotFound
  | invalidColumns (cols : List String)
  | validated (cols : List String)
  | inserted (cols : List String)

/-- The INSERT statement: the payload columns and one placeholder per column. -/
def insertSql (table : String) (cols : List String) : String :=
  "INSERT INTO " ++ table ++ " (" ++ joinWith ", " cols ++ ") VALUES (" ++
    joinWith ", " (cols.map (fun c => ":" ++ c)) ++ ")"

/-- safe_insert_record: look up the column set of the table through the
schema introspector, reject a payload mentioning a column outside it before
building any INSERT, echo the payload when validation only was requested,
otherwise execute the INSERT.  Returns the result together with the data
statements sent to the engine.  (The source lists the offending Python set
difference; here the offending columns are kept in payload order.) -/
def safe_insert_record (table : String) (schemaCols : List String) (data : Row)
    (validate_only : Bool) : InsertResult × List String :=
  if schemaCols.isEmpty then (.tableNotFound, [])
  else
    let invalid := (data.map Prod.fst).filter (fun c => !(schemaCols.contains c))
    if invalid.isEmpty then
      if validate_only then (.validated (data.map Prod.fst), [])
      else (.inserted (data.map Prod.fst), [insertSql table (data.map Prod.fst)])
    else (.invalidColumns invalid, [])

/-! ### batch_insert_records (server.py lines 712-771) -/

/-- Python range(0, stop, step) for a positive step. -/
def pyRange (stop step : Nat) : List Nat :=
  (List.range ((stop + step - 1) / step)).map (fun k => k * step)

/-- The chunks of a batch: for each start index i of range(0, n, bs) the
slice records[i:i+bs]. -/
def batchChunks (records : List Row) (bs : Nat) : List (Nat × List Row) :=
  (pyRange records.length bs).map (fun i => (i, (records.drop i).take bs))

/-- One failed chunk of a batch insert. -/
structure FailedBatch where
  batch_start : Nat
  batch_size : Nat
  error : String
deriving Repr, DecidableEq

/-- The final report of batch_insert_records. -/
structure BatchReport where
  total_records : Nat
  successfully_inserted : Nat
  failed_batches : List FailedBatch
  batch_size_used : Nat
deriving Repr, DecidableEq

/-- batch_insert_records: clamp the chunk size into the range from 1 to 1000,
slice the records into consecutive chunks, run one unit of work per chunk
(abstracted by the oracle execChunk, none meaning the chunk committed),
record a failing chunk under its start index, size and error text, and
continue with the next chunk. -/
def batch_insert_records (execChunk : Nat → List Row → Option String)
    (records : List Row) (batch_size : Int) : BatchReport :=
  let bs := (clampTo 1000 batch_size).toNat
  let outcome := (batchChunks records bs).foldl
    (fun acc c =>
      match execChunk c.1 c.2 with
      | none => (acc.1 + c.2.length, acc.2)
      | some e => (acc.1, acc.2 ++ [⟨c.1, c.2.length, e⟩]))
    ((0 : Nat), ([] : List FailedBatch))
  ⟨records.length, outcome.1, outcome.2, bs⟩

/-! ### custom_aggregation HAVING compiler (server.py lines 894-902) -/

/-- The HAVING compiler of custom_aggregation: every condition key is spliced
with the fixed greater-than comparator against a synthetic numbered
parameter having_0, having_1, ... -/
def customAggHaving (having_dict : List (String × JVal)) :
    List String × List (String × JVal) :=
  having_dict.foldl
    (fun acc cv =>
      let paramName := "having_" ++ decStr acc.2.length
      (acc.1 ++ [cv.1 ++ " > :" ++ paramName], acc.2 ++ [(paramName, cv.2)]))
    ([], [])

/-- The HAVING text, empty when there are no conditions. -/
def customAggHavingSql (having_dict : List (String × JVal)) : String :=
  if having_dict.isEmpty then ""
  else "HAVING " ++ joinWith " AND " (customAggHaving having_dict).1

/-! ### paginated_query (server.py lines 1038-1091) -/

/-- paginated_query clamps the page size to at least 1 and at most 100. -/
def pageSizeClamped (page_size : Int) : Int :=
  clampTo 100 page_size

/-- The pagination offset: (page - 1) times the already clamped page size. -/
def pqOffset (page page_size : Int) : Int :=
  (page - 1) * pageSizeClamped page_size

/-- The paginated statement wrapping the caller query. -/
def paginated_query_sql (query : String) (page page_size : Int) : String :=
  query ++ " ORDER BY (SELECT NULL) OFFSET " ++ intStr (pqOffset page page_size) ++
    " ROWS FETCH NEXT " ++ intStr (pageSizeClamped page_size) ++ " ROWS ONLY"

/-! ### get_azure_engine (server.py lines 17-79) -/

/-- get_azure_engine over an abstract engine type: return the memoized handle
when one exists; otherwise run the construction (abstracted by an oracle),
memoize the handle on success, and wrap a failure without memoizing.  The
third component counts the constructions performed by this call. -/
def get_azure_engine {α : Type} (construct : Except String α) :
    Option α → Except String α × Option α × Nat
  | some e => (.ok e, some e, 0)
  | none =>
    match construct with
    | .ok e => (.ok e, some e, 1)
    | .error msg => (.error ("Failed to create engine: " ++ msg), none, 1)

/-- A sequence of calls going through the shared module-level handle,
returning result and construction count per call, plus the final state. -/
def runEngineCalls {α : Type} : List (Except String α) → Option α →
    List (Except String α × Nat) × Option α
  | [], st => ([], st)
  | c :: cs, st =>
    let r := get_azure_engine c st
    let rest := runEngineCalls cs r.2.1
    ((r.1, r.2.2) :: rest.1, rest.2)

/-! ### data_profiling (server.py lines 1094-1197) -/

/-- The SQL type names the profiler treats as numeric. -/
def numericTypes : List String :=
  ["int", "bigint", "decimal", "numeric", "float", "real", "money"]

/-- The SQL type names the profiler treats as textual. -/
def textTypes : List String :=
  ["varchar", "nvarchar", "char", "nchar", "text", "ntext"]

/-- The statistics query built for one column, dispatched on type category. -/
def statsSqlFor (table col dtype : String) : String :=
  if numericTypes.contains dtype then
    "SELECT COUNT(*) as total_count, COUNT(" ++ col ++ ") as non_null_count, COUNT(*) - COUNT(" ++
      col ++ ") as null_count, MIN(" ++ col ++ ") as min_value, MAX(" ++ col ++
      ") as max_value, AVG(CAST(" ++ col ++ " AS FLOAT)) as avg_value, COUNT(DISTINCT " ++ col ++
      ") as distinct_count FROM " ++ table
  else if textTypes.contains dtype then
    "SELECT COUNT(*) as total_count, COUNT(" ++ col ++ ") as non_null_count, COUNT(*) - COUNT(" ++
      col ++ ") as null_count, MIN(LEN(" ++ col ++ ")) as min_length, MAX(LEN(" ++ col ++
      ")) as max_length, AVG(CAST(LEN(" ++ col ++ ") AS FLOAT)) as avg_length, COUNT(DISTINCT " ++
      col ++ ") as distinct_count FROM " ++ table
  else
    "SELECT COUNT(*) as total_count, COUNT(" ++ col ++ ") as non_null_count, COUNT(*) - COUNT(" ++
      col ++ ") as null_count, COUNT(DISTINCT " ++ col ++ ") as distinct_count FROM " ++ table

/-- The top-5 frequency query for one column. -/
def topValuesSqlFor (table col : String) : String :=
  "SELECT TOP 5 " ++ col ++ ", COUNT(*) as frequency FROM " ++ table ++ " WHERE " ++ col ++
    " IS NOT NULL GROUP BY " ++ col ++ " ORDER BY COUNT(*) DESC"

/-- One per-column profile: the statistics row and the top-value rows are what
the engine (abstracted by the oracles) returns for the built queries. -/
structure ProfileEntry where
  column_name : String
  data_type : String
  statistics : Row
  top_values : List Row

/-- Outcome of data_profiling. -/
inductive ProfilingResult where
  | tableNotFound
  | report (table : String) (results : List ProfileEntry)

/-- data_profiling: read the table schema; report a missing table; when a
non-empty column list is given keep only the schema rows it names; profile
each remaining column through the engine oracles. -/
def data_profiling (table : String) (schema : List (String × String))
    (targets : List String) (execRow : String → Row) (execRows : String → List Row) :
    ProfilingResult :=
  if schema.isEmpty then .tableNotFound
  else
    let kept := if targets.isEmpty then schema
      else schema.filter (fun cd => targets.contains cd.1)
    .report table (kept.map (fun cd =>
      ⟨cd.1, cd.2, execRow (statsSqlFor table cd.1 cd.2), execRows (topValuesSqlFor table cd.1)⟩))

/-! ### Demonstration inputs -/

/-- A demonstration filter specification with three predicates on two columns. -/
def demoFilters : List (String × JVal) :=
  [("Country", JVal.obj [("eq", JVal.str "Germany"), ("like", JVal.str "Ger")]),
   ("CustomerID", JVal.obj [("in", JVal.arr [JVal.str "ALFKI", JVal.str "ANATR"])])]

/-- The compiled state of the demonstration filters. -/
def demoSt : CompState :=
  ⟨["Country = :param1", "Country LIKE :param2", "CustomerID IN (:param3_0,:param3_1)"],
   [("param1", JVal.str "Germany"), ("param2", JVal.str "%Ger%"),
    ("param3_0", JVal.str "ALFKI"), ("param3_1", JVal.str "ANATR")], 4⟩

/-! ### Decimal-rendering facts -/

theorem decDigitsGo_congr :
    ∀ f1 f2 n : Nat, n ≤ f1 → n ≤ f2 → decDigitsGo f1 n = decDigitsGo f2 n := by
  intro f1
  induction f1 with
  | zero =>
    intro f2 n h1 _
    have hn : n = 0 := by omega
    subst hn
    cases f2 with
    | zero => rfl
    | succ f2 => simp [decDigitsGo]
  | succ f1 ih =>
    intro f2 n h1 h2
    cases f2 with
    | zero =>
      have hn : n = 0 := by omega
      subst hn
      simp [decDigitsGo]
    | succ f2 =>
      simp only [decDigitsGo]
      split
      · rfl
      · rw [ih f2 (n / 10) (by omega) (by omega)]

theorem decDigits_eq (n : Nat) :
    decDigits n = if n < 10 then [n] else decDigits (n / 10) ++ [n % 10] := by
  unfold decDigits
  cases n with
  | zero => simp [decDigitsGo]
  | succ m =>
    simp only [decDigitsGo]
    split
    · rfl
    · rw [decDigitsGo_congr m ((m + 1) / 10) ((m + 1) / 10) (by omega) (by omega)]

theorem decVal_foldl (ds : List Nat) (a : Nat) :
    ds.foldl (fun a d => a * 10 + d) a = a * 10 ^ ds.length + decVal ds := by
  induction ds generalizing a with
  | nil => simp [decVal]
  | cons d rest ih =>
    simp only [List.foldl_cons, List.length_cons]
    have h2 : decVal (d :: rest) = d * 10 ^ rest.length + decVal rest := by
      simpa [decVal] using ih d
    rw [ih (a * 10 + d), h2]
    ring

theorem decVal_append (ds es : List Nat) :
    decVal (ds ++ es) = decVal ds * 10 ^ es.length + decVal es := by
  simp only [decVal, List.foldl_append]
  rw [decVal_foldl]
  rfl

theorem decVal_decDigits (n : Nat) : decVal (decDigits n) = n := by
  rw [decDigits_eq]
  split
  · simp [decVal]
  · rw [decVal_append, decVal_decDigits (n / 10)]
    simp [decVal]
    omega
termination_by n
decreasing_by exact Nat.div_lt_self (by omega) (by omega)

theorem decDigits_inj {n m : Nat} (h : decDigits n = decDigits m) : n = m := by
  have := decVal_decDigits n
  rw [h, decVal_decDigits] at this
  omega

theorem decDigits_lt10 (n : Nat) : ∀ d ∈ decDigits n, d < 10 := by
  rw [decDigits_eq]
  split
  · intro d hd
    simp at hd
    omega
  · intro d hd
    simp at hd
    rcases hd with h | h
    · exact decDigits_lt10 (n / 10) d h
    · omega
termination_by n
decreasing_by exact Nat.div_lt_self (by omega) (by omega)

theorem decChar_inj : ∀ a < 10, ∀ b < 10, decChar a = decChar b → a = b := by
  decide

theorem decChar_ne_underscore : ∀ d < 10, decChar d ≠ '_' := by
  decide

theorem decChar_isDigit : ∀ d < 10, (decChar d).isDigit = true := by
  decide

theorem map_decChar_inj :
    ∀ ds es : List Nat, (∀ d ∈ ds, d < 10) → (∀ e ∈ es, e < 10) →
      ds.map decChar = es.map decChar → ds = es := by
  intro ds
  induction ds with
  | nil =>
    intro es _ _ h
    cases es with
    | nil => rfl
    | cons e es => simp at h
  | cons d ds ih =>
    intro es hds hes h
    cases es with
    | nil => simp at h
    | cons e es =>
      simp only [List.map_cons, List.cons.injEq] at h
      have hd : d = e := by
        refine decChar_inj d ?_ e ?_ h.1
        · exact hds d (by simp)
        · exact hes e (by simp)
      subst hd
      have : ds = es := by
        refine ih es (fun x hx => hds x (by simp [hx])) (fun x hx => hes x (by simp [hx])) h.2
      simp [this]

theorem decStr_inj {n m : Nat} (h : decStr n = decStr m) : n = m := by
  have hd : (decDigits n).map decChar = (decDigits m).map decChar :=
    congrArg String.data h
  exact decDigits_inj (map_decChar_inj _ _ (decDigits_lt10 n) (decDigits_lt10 m) hd)

theorem decStr_no_underscore (n : Nat) : '_' ∉ (decStr n).data := by
  intro h
  have h2 : '_' ∈ (decDigits n).map decChar := h
  rw [List.mem_map] at h2
  obtain ⟨d, hd, hc⟩ := h2
  exact decChar_ne_underscore d (decDigits_lt10 n d hd) hc

/-! ### Placeholder-name facts -/

theorem pName_inj {n m : Nat} (h : pName n = pName m) : n = m := by
  have hd := congrArg String.data h
  simp only [pName, String.data_append] at hd
  exact decStr_inj (String.ext (List.append_cancel_left hd))

theorem underscore_data : ("_" : String).data = ['_'] := rfl

theorem append_underscore_inj :
    ∀ l1 : List Char, ∀ {l2 r1 r2 : List Char}, '_' ∉ l1 → '_' ∉ l2 →
      l1 ++ '_' :: r1 = l2 ++ '_' :: r2 → l1 = l2 ∧ r1 = r2 := by
  intro l1
  induction l1 with
  | nil =>
    intro l2 r1 r2 _ h2 h
    cases l2 with
    | nil => simpa using h
    | cons c l2 =>
      exfalso
      simp only [List.nil_append, List.cons_append, List.cons.injEq] at h
      exact h2 (h.1 ▸ List.mem_cons_self c l2)
  | cons c l1 ih =>
    intro l2 r1 r2 h1 h2 h
    cases l2 with
    | nil =>
      exfalso
      simp only [List.nil_append, List.cons_append, List.cons.injEq] at h
      exact h1 (h.1 ▸ List.mem_cons_self c l1)
    | cons d l2 =>
      simp only [List.cons_append, List.cons.injEq] at h
      obtain ⟨rfl, h⟩ := h
      have hr := ih (fun hm => h1 (List.mem_cons_of_mem _ hm))
        (fun hm => h2 (List.mem_cons_of_mem _ hm)) h
      exact ⟨by rw [hr.1], hr.2⟩

theorem pName_ne_pInName (n m j : Nat) : pName n ≠ pInName m j := by
  intro h
  have hd := congrArg String.data h
  simp only [pName, pInName, String.data_append, underscore_data, List.append_assoc,
    List.singleton_append] at hd
  have := List.append_cancel_left hd
  exact decStr_no_underscore n (this ▸ List.mem_append_right _ (List.mem_cons_self _ _))

theorem pInName_inj {n m j k : Nat} (h : pInName n j = pInName m k) : n = m ∧ j = k := by
  have hd := congrArg String.data h
  simp only [pInName, pName, String.data_append, underscore_data, List.append_assoc,
    List.singleton_append] at hd
  have hsplit := append_underscore_inj (decStr n).data (decStr_no_underscore n)
    (decStr_no_underscore m) (List.append_cancel_left hd)
  exact ⟨decStr_inj (String.ext hsplit.1), decStr_inj (String.ext hsplit.2)⟩

theorem hasTag_unique {name : String} {k k' : Nat}
    (h : hasTag name k) (h' : hasTag name k') : k = k' := by
  rcases h with h | ⟨j, h⟩ <;> rcases h' with h' | ⟨j', h'⟩
  · exact pName_inj (h.symm.trans h')
  · exact absurd (h.symm.trans h') (pName_ne_pInName k k' j')
  · exact absurd (h'.symm.trans h) (pName_ne_pInName k' k j)
  · exact (pInName_inj (h.symm.trans h')).1

/-! ### Theorems about the compiled parameters -/

theorem inBinds_names (n : Nat) (elems : List JVal) :
    (inBinds (pName n) elems).map Prod.fst = (List.range elems.length).map (pInName n) := by
  simp only [inBinds, List.map_map]
  have hz : (((List.range elems.length).zip elems).map Prod.fst) = List.range elems.length :=
    List.map_fst_zip _ _ (by simp)
  calc ((List.range elems.length).zip elems).map
        (Prod.fst ∘ fun p => (pName n ++ "_" ++ decStr p.1, p.2))
      = ((List.range elems.length).zip elems).map ((pInName n) ∘ Prod.fst) := by
        simp [Function.comp, pInName]
    _ = (((List.range elems.length).zip elems).map Prod.fst).map (pInName n) := by
        rw [List.map_map]
    _ = (List.range elems.length).map (pInName n) := by rw [hz]

theorem inBinds_values (paramName : String) (elems : List JVal) :
    (inBinds paramName elems).map Prod.snd = elems := by
  simp only [inBinds, List.map_map]
  have hz : (((List.range elems.length).zip elems).map Prod.snd) = elems :=
    List.map_snd_zip _ _ (by simp)
  calc ((List.range elems.length).zip elems).map
        (Prod.snd ∘ fun p => (paramName ++ "_" ++ decStr p.1, p.2))
      = ((List.range elems.length).zip elems).map Prod.snd := by
        simp [Function.comp]
    _ = elems := hz

/-- Each operator-value pair compiled under counter n binds parameters whose
names all carry tag n and are pairwise distinct. -/
theorem applyOp_params_tags (column : String) (n : Nat) (op : String) (v : JVal)
    {cs : List String} {ps : List (String × JVal)}
    (h : applyOp column (pName n) op v = .ok (cs, ps)) :
    (ps.map Prod.fst).Nodup ∧ ∀ name ∈ ps.map Prod.fst, hasTag name n := by
  unfold applyOp at h
  split_ifs at h with h1 h2 h3 h4 h5 h6 h7
  · simp only [Except.ok.injEq, Prod.mk.injEq] at h
    obtain ⟨hcs, hps⟩ := h
    subst hps
    exact ⟨by simp, by simp [hasTag]⟩
  · simp only [Except.ok.injEq, Prod.mk.injEq] at h
    obtain ⟨hcs, hps⟩ := h
    subst hps
    exact ⟨by simp, by simp [hasTag]⟩
  · simp only [Except.ok.injEq, Prod.mk.injEq] at h
    obtain ⟨hcs, hps⟩ := h
    subst hps
    exact ⟨by simp, by simp [hasTag]⟩
  · simp only [Except.ok.injEq, Prod.mk.injEq] at h
    obtain ⟨hcs, hps⟩ := h
    subst hps
    exact ⟨by simp, by simp [hasTag]⟩
  · simp only [Except.ok.injEq, Prod.mk.injEq] at h
    obtain ⟨hcs, hps⟩ := h
    subst hps
    exact ⟨by simp, by simp [hasTag]⟩
  · simp only [Except.ok.injEq, Prod.mk.injEq] at h
    obtain ⟨hcs, hps⟩ := h
    subst hps
    exact ⟨by simp, by simp [hasTag]⟩
  · cases hi : inElems v with
    | error e => rw [hi] at h; exact absurd h (by simp)
    | ok elems =>
      rw [hi] at h
      simp only [Except.ok.injEq, Prod.mk.injEq] at h
      obtain ⟨hcs, hps⟩ := h
      subst hps
      rw [inBinds_names]
      constructor
      · exact (List.nodup_range _).map (fun a b hab => (pInName_inj hab).2)
      · intro name hname
        rw [List.mem_map] at hname
        obtain ⟨j, _, rfl⟩ := hname
        exact Or.inr ⟨j, rfl⟩
  · simp only [Except.ok.injEq, Prod.mk.injEq] at h
    obtain ⟨hcs, hps⟩ := h
    subst hps
    exact ⟨by simp, by simp⟩

theorem compileOps_inv (column : String) :
    ∀ ops : List (String × JVal), ∀ st st' : CompState,
      compileOps column ops st = .ok st' → 1 ≤ st.paramCounter → TagInv st →
      TagInv st' ∧ st.paramCounter ≤ st'.paramCounter := by
  intro ops
  induction ops with
  | nil =>
    intro st st' h _ hinv
    simp only [compileOps, Except.ok.injEq] at h
    subst h
    exact ⟨hinv, le_refl _⟩
  | cons opv rest ih =>
    intro st st' h hc hinv
    obtain ⟨op, v⟩ := opv
    simp only [compileOps] at h
    cases ha : applyOp column (pName st.paramCounter) op v with
    | error e => rw [ha] at h; exact absurd h (by simp)
    | ok csps =>
      rw [ha] at h
      obtain ⟨cs, ps⟩ := csps
      have hstep := applyOp_params_tags column st.paramCounter op v ha
      have hmid : TagInv ⟨st.whereClauses ++ cs, st.params ++ ps, st.paramCounter + 1⟩ := by
        constructor
        · rw [List.map_append]
          refine List.Nodup.append hinv.1 hstep.1 ?_
          intro name hold hnew
          obtain ⟨k, _, hklt, htag⟩ := hinv.2 name hold
          have := hasTag_unique htag (hstep.2 name hnew)
          omega
        · intro name hname
          rw [List.map_append, List.mem_append] at hname
          rcases hname with hold | hnew
          · obtain ⟨k, hk1, hklt, htag⟩ := hinv.2 name hold
            exact ⟨k, hk1, by show k < st.paramCounter + 1; omega, htag⟩
          · exact ⟨st.paramCounter, hc, by show st.paramCounter < st.paramCounter + 1; omega,
              hstep.2 name hnew⟩
      have := ih _ st' h (by show 1 ≤ st.paramCounter + 1; omega) hmid
      exact ⟨this.1, le_trans (Nat.le_succ _) this.2⟩

theorem compileEntry_inv (e : String × JVal) (st st' : CompState)
    (h : compileEntry e st = .ok st') (hc : 1 ≤ st.paramCounter) (hinv : TagInv st) :
    TagInv st' ∧ st.paramCounter ≤ st'.paramCounter := by
  obtain ⟨column, cond⟩ := e
  cases cond with
  | obj ops => exact compileOps_inv column ops st st' h hc hinv
  | str s => simp only [compileEntry, Except.ok.injEq] at h; subst h; exact ⟨hinv, le_refl _⟩
  | int i => simp only [compileEntry, Except.ok.injEq] at h; subst h; exact ⟨hinv, le_refl _⟩
  | bool b => simp only [compileEntry, Except.ok.injEq] at h; subst h; exact ⟨hinv, le_refl _⟩
  | null => simp only [compileEntry, Except.ok.injEq] at h; subst h; exact ⟨hinv, le_refl _⟩
  | arr vs => simp only [compileEntry, Except.ok.injEq] at h; subst h; exact ⟨hinv, le_refl _⟩

theorem compileFilters_inv :
    ∀ filters : List (String × JVal), ∀ st st' : CompState,
      compileFilters filters st = .ok st' → 1 ≤ st.paramCounter → TagInv st →
      TagInv st' ∧ st.paramCounter ≤ st'.paramCounter := by
  intro filters
  induction filters with
  | nil =>
    intro st st' h _ hinv
    simp only [compileFilters, Except.ok.injEq] at h
    subst h
    exact ⟨hinv, le_refl _⟩
  | cons e rest ih =>
    intro st st' h hc hinv
    simp only [compileFilters] at h
    cases he : compileEntry e st with
    | error err => rw [he] at h; exact absurd h (by simp)
    | ok st2 =>
      rw [he] at h
      have h1 := compileEntry_inv e st st2 he hc hinv
      have h2 := ih st2 st' h (by omega) h1.1
      exact ⟨h2.1, by omega⟩

/-! ### HAVING compiler characterization -/

theorem customAggHaving_foldl (hd : List (String × JVal)) :
    ∀ cl : List String, ∀ ps : List (String × JVal),
      hd.foldl
        (fun acc cv =>
          let paramName := "having_" ++ decStr acc.2.length
          (acc.1 ++ [cv.1 ++ " > :" ++ paramName], acc.2 ++ [(paramName, cv.2)]))
        (cl, ps) =
      (cl ++ (hd.enumFrom ps.length).map (fun p => p.2.1 ++ " > :having_" ++ decStr p.1),
       ps ++ (hd.enumFrom ps.length).map (fun p => ("having_" ++ decStr p.1, p.2.2))) := by
  induction hd with
  | nil => intro cl ps; simp
  | cons cv rest ih =>
    intro cl ps
    simp only [List.foldl_cons, List.enumFrom_cons]
    rw [ih (cl ++ [cv.1 ++ " > :" ++ ("having_" ++ decStr ps.length)])
        (ps ++ [("having_" ++ decStr ps.length, cv.2)])]
    simp [List.length_append, String.append_assoc]
    rw [← String.append_assoc " > :" "having_",
      show (" > :" : String) ++ "having_" = " > :having_" from rfl]

/-- Claim C7: every having condition is compiled into a HAVING fragment that
splices the condition text with the fixed greater-than comparator against the
synthetic numbered parameter having_0, having_1, ..., regardless of the
intended operator; the parameter map binds those numbered names in order, and
the HAVING text is exactly those fragments joined by AND, so no other
comparator is ever emitted in a HAVING clause. -/
theorem C7_having_gt_only (having_dict : List (String × JVal)) :
    (customAggHaving having_dict).1 =
      having_dict.enum.map (fun p => p.2.1 ++ " > :having_" ++ decStr p.1)
    ∧ (customAggHaving having_dict).2 =
      having_dict.enum.map (fun p => ("having_" ++ decStr p.1, p.2.2))
    ∧ customAggHavingSql having_dict =
        (if having_dict.isEmpty then ""
         else "HAVING " ++ joinWith " AND "
           (having_dict.enum.map (fun p => p.2.1 ++ " > :having_" ++ decStr p.1))) := by
  have h2 : customAggHaving having_dict =
      (having_dict.enum.map (fun p => p.2.1 ++ " > :having_" ++ decStr p.1),
       having_dict.enum.map (fun p => ("having_" ++ decStr p.1, p.2.2))) := by
    unfold customAggHaving
    rw [customAggHaving_foldl having_dict [] []]
    simp [List.enum]
  refine ⟨by rw [h2], by rw [h2], ?_⟩
  unfold customAggHavingSql
  rw [h2]

/-! ### Pagination -/

/-- Claim C5: pagination computes offset = (page - 1) * pageSize after
clamping the page size to the operation maximum of 100: page 1 with size 20
gives offset 0, page 3 with size 20 gives offset 40, any requested size above
100 is clamped to 100, and an in-range size is used as given. -/
theorem C5_pagination_offset (page ps : Int) :
    pqOffset page ps = (page - 1) * pageSizeClamped ps
    ∧ pqOffset 1 20 = 0
    ∧ pqOffset 3 20 = 40
    ∧ (1 : Int) ≤ pageSizeClamped ps
    ∧ pageSizeClamped ps ≤ 100
    ∧ (100 < ps → pageSizeClamped ps = 100)
    ∧ (1 ≤ ps → ps ≤ 100 → pageSizeClamped ps = ps) := by
  refine ⟨rfl, by decide, by decide, ?_, ?_, ?_, ?_⟩ <;>
    simp only [pageSizeClamped, clampTo] <;> omega

theorem C5_pagination_offset_witness :
    (100 : Int) < 250 ∧ pageSizeClamped 250 = 100
    ∧ pqOffset 1 20 = 0 ∧ pqOffset 3 20 = 40 :=
  ⟨by decide, (C5_pagination_offset 1 250).2.2.2.2.2.1 (by decide),
    (C5_pagination_offset 1 20).2.1, (C5_pagination_offset 3 20).2.2.1⟩

/-! ### Update sequencing -/

/-- Claim C2: every update call runs the preview SELECT with the WHERE
predicate before anything else; a validation-only call returns with the
database unchanged and only the preview SELECT executed (in particular no
UPDATE statement), so re-querying the same predicate afterwards returns rows
identical to the pre-call preview; a non-validation call executes the UPDATE
only after the preview, and only when the preview found rows. -/
theorem C2_validate_only_update (db : DB) (table : String) (wd ud : Row) :
    (safe_update_record db table wd ud true).2.1 = db
    ∧ (safe_update_record db table wd ud true).2.2 = [previewSql table wd]
    ∧ selectWhere (safe_update_record db table wd ud true).2.1 wd = selectWhere db wd
    ∧ ((selectWhere db wd).isEmpty = false →
        (safe_update_record db table wd ud true).1 =
          .validated (selectWhere db wd).length (selectWhere db wd) ud)
    ∧ (∀ v : Bool,
        List.head? (safe_update_record db table wd ud v).2.2 = some (previewSql table wd))
    ∧ (safe_update_record db table wd ud false).2.2 =
        (if (selectWhere db wd).isEmpty then [previewSql table wd]
         else [previewSql table wd, updateSqlOf table ud wd]) := by
  by_cases h : (selectWhere db wd).isEmpty
  · refine ⟨?_, ?_, ?_, ?_, ?_, ?_⟩
    · simp [safe_update_record, h]
    · simp [safe_update_record, h]
    · simp [safe_update_record, h]
    · intro hfalse; rw [h] at hfalse; cases hfalse
    · intro v; simp [safe_update_record, h]
    · simp [safe_update_record, h]
  · refine ⟨?_, ?_, ?_, ?_, ?_, ?_⟩
    · simp [safe_update_record, h]
    · simp [safe_update_record, h]
    · simp [safe_update_record, h]
    · intro _; simp [safe_update_record, h]
    · intro v; cases v <;> simp [safe_update_record, h]
    · simp [safe_update_record, h]

theorem C2_validate_only_update_witness :
    (selectWhere [[("A", JVal.int 1)]] [("A", JVal.int 1)]).isEmpty = false
    ∧ (safe_update_record [[("A", JVal.int 1)]] "T" [("A", JVal.int 1)] [("B", JVal.int 2)]
        true).2.1 = [[("A", JVal.int 1)]]
    ∧ (safe_update_record [[("A", JVal.int 1)]] "T" [("A", JVal.int 1)] [("B", JVal.int 2)]
        true).1 =
      .validated (selectWhere [[("A", JVal.int 1)]] [("A", JVal.int 1)]).length
        (selectWhere [[("A", JVal.int 1)]] [("A", JVal.int 1)]) [("B", JVal.int 2)] :=
  ⟨rfl,
    (C2_validate_only_update [[("A", JVal.int 1)]] "T" [("A", JVal.int 1)]
      [("B", JVal.int 2)]).1,
    (C2_validate_only_update [[("A", JVal.int 1)]] "T" [("A", JVal.int 1)]
      [("B", JVal.int 2)]).2.2.2.1 rfl⟩

/-- Claim C10: a non-validation update whose preview SELECT matches no rows
returns the literal no-records message, leaves the database unchanged, and
sends no UPDATE statement to the engine (only the preview SELECT ran). -/
theorem C10_update_no_match (db : DB) (table : String) (wd ud : Row)
    (h : selectWhere db wd = []) :
    safe_update_record db table wd ud false =
      (.noRecords "No records found matching the WHERE conditions", db,
        [previewSql table wd]) := by
  simp [safe_update_record, h]

theorem C10_update_no_match_witness :
    selectWhere [[("A", JVal.int 1)]] [("A", JVal.int 2)] = ([] : List Row)
    ∧ safe_update_record [[("A", JVal.int 1)]] "T" [("A", JVal.int 2)] [("A", JVal.int 3)]
        false =
      (.noRecords "No records found matching the WHERE conditions", [[("A", JVal.int 1)]],
        [previewSql "T" [("A", JVal.int 2)]]) :=
  ⟨rfl, C10_update_no_match [[("A", JVal.int 1)]] "T" [("A", JVal.int 2)] [("A", JVal.int 3)] rfl⟩

/-! ### Connection provider -/

theorem runEngineCalls_memoized {α : Type} (e : α) :
    ∀ cs : List (Except String α),
      (runEngineCalls cs (some e)).1 = cs.map (fun _ => (Except.ok e, 0)) ∧
      (runEngineCalls cs (some e)).2 = some e := by
  intro cs
  induction cs with
  | nil => exact ⟨rfl, rfl⟩
  | cons c cs ih =>
    simp only [runEngineCalls, get_azure_engine, List.map_cons]
    exact ⟨by rw [ih.1], ih.2⟩

/-- Claim C8: the connection provider is idempotent: once a handle is
memoized, every call returns the same handle and performs zero constructions;
a first successful call memoizes its handle, and a whole call sequence after
a first successful construction performs exactly one construction in total,
every call returning the same handle. -/
theorem C8_engine_idempotent {α : Type} (e : α) (c : Except String α)
    (cs : List (Except String α)) :
    get_azure_engine c (some e) = (.ok e, some e, 0)
    ∧ get_azure_engine (Except.ok e) (none : Option α) = (.ok e, some e, 1)
    ∧ (runEngineCalls cs (some e)).1 = cs.map (fun _ => (Except.ok e, 0))
    ∧ (runEngineCalls cs (some e)).2 = some e
    ∧ (runEngineCalls (Except.ok e :: cs) none).1 =
        (Except.ok e, 1) :: cs.map (fun _ => (Except.ok e, 0))
    ∧ ((runEngineCalls (Except.ok e :: cs) none).1.map Prod.snd).sum = 1 := by
  have hm := runEngineCalls_memoized e cs
  have h5 : (runEngineCalls (Except.ok e :: cs) none).1 =
      (Except.ok e, 1) :: cs.map (fun _ => (Except.ok e, 0)) := by
    simp only [runEngineCalls, get_azure_engine]
    rw [hm.1]
  refine ⟨rfl, rfl, hm.1, hm.2, h5, ?_⟩
  rw [h5]
  simp

/-! ### Data profiling -/

/-- Claim C9: profiling a present table with a column filter that matches
none of its real columns returns a successful report whose per-column results
list is empty, not an error. -/
theorem C9_profile_empty_filter (table : String) (schema : List (String × String))
    (targets : List String) (execRow : String → Row) (execRows : String → List Row)
    (hs : schema.isEmpty = false) (ht : targets.isEmpty = false)
    (hnone : ∀ cd ∈ schema, targets.contains cd.1 = false) :
    data_profiling table schema targets execRow execRows = .report table [] := by
  unfold data_profiling
  rw [hs, ht]
  simp only [Bool.false_eq_true, if_false]
  rw [List.filter_eq_nil_iff.mpr (by simpa using hnone)]
  rfl

theorem C9_profile_empty_filter_witness :
    ([("A", "int")] : List (String × String)).isEmpty = false
    ∧ (["Z"] : List String).isEmpty = false
    ∧ (∀ cd ∈ ([("A", "int")] : List (String × String)), (["Z"].contains cd.1) = false)
    ∧ data_profiling "T" [("A", "int")] ["Z"] (fun _ => []) (fun _ => []) = .report "T" [] :=
  ⟨rfl, rfl, by decide,
    C9_profile_empty_filter "T" [("A", "int")] ["Z"] (fun _ => []) (fun _ => [])
      rfl rfl (by decide)⟩

/-! ### Batch chunking -/

theorem pyRange_zero (step : Nat) : pyRange 0 step = [] := by
  unfold pyRange
  have h : (0 + step - 1) / step = 0 := by
    cases step with
    | zero => rfl
    | succ s => exact Nat.div_eq_of_lt (by omega)
  rw [h]
  rfl

theorem pyRange_succ (stop step : Nat) (hstep : 1 ≤ step) (hstop : 1 ≤ stop) :
    pyRange stop step = 0 :: (pyRange (stop - step) step).map (fun i => i + step) := by
  unfold pyRange
  have hcount : (stop + step - 1) / step = (stop - step + step - 1) / step + 1 := by
    rcases le_or_lt stop step with h | h
    · have h1 : stop - step = 0 := by omega
      rw [h1]
      have h2 : (0 + step - 1) / step = 0 := Nat.div_eq_of_lt (by omega)
      rw [h2]
      exact Nat.div_eq_of_lt_le (by omega) (by omega)
    · have h4 : stop - step + step - 1 + step = stop + step - 1 := by omega
      rw [← h4, Nat.add_div_right _ (by omega)]
  rw [hcount, List.range_succ_eq_map]
  simp only [List.map_cons, List.map_map, Nat.zero_mul]
  congr 1
  apply List.map_congr_left
  intro k _
  simp [Function.comp, Nat.succ_mul]

theorem batchChunks_nil (bs : Nat) : batchChunks [] bs = [] := by
  unfold batchChunks
  rw [show ([] : List Row).length = 0 from rfl, pyRange_zero]
  rfl

theorem batchChunks_cons (x : Row) (l : List Row) (bs : Nat) (hbs : 1 ≤ bs) :
    batchChunks (x :: l) bs =
      (0, (x :: l).take bs) ::
        (batchChunks (l.drop (bs - 1)) bs).map (fun c => (c.1 + bs, c.2)) := by
  unfold batchChunks
  have hlen : (l.drop (bs - 1)).length = l.length + 1 - bs := by
    rw [List.length_drop]
    omega
  rw [hlen, show (x :: l).length = l.length + 1 from rfl,
    pyRange_succ (l.length + 1) bs hbs (by omega)]
  simp only [List.map_cons, List.map_map, List.drop_zero]
  congr 1
  apply List.map_congr_left
  intro i _
  simp only [Function.comp]
  have hdrop : (x :: l).drop (i + bs) = (l.drop (bs - 1)).drop i := by
    have h1 : (x :: l).drop (i + bs) = l.drop (i + bs - 1) := by
      conv_lhs => rw [show i + bs = (i + bs - 1) + 1 from by omega]
      rw [List.drop_succ_cons]
    rw [List.drop_drop, h1]
    congr 1
    omega
  rw [hdrop]

theorem batchChunks_flatten (bs : Nat) (hbs : 1 ≤ bs) :
    ∀ l : List Row, ((batchChunks l bs).map Prod.snd).flatten = l
  | [] => by rw [batchChunks_nil]; rfl
  | x :: rest => by
    have ih := batchChunks_flatten bs hbs (rest.drop (bs - 1))
    rw [batchChunks_cons x rest bs hbs]
    simp only [List.map_cons, List.flatten_cons, List.map_map]
    have hsnd : (Prod.snd ∘ fun c : Nat × List Row => (c.1 + bs, c.2)) = Prod.snd := rfl
    rw [hsnd, ih]
    have htake : (x :: rest).take bs = x :: rest.take (bs - 1) := by
      rw [show bs = (bs - 1) + 1 from by omega, List.take_succ_cons, Nat.add_sub_cancel]
    rw [htake]
    simp [List.take_append_drop]
termination_by l => l.length
decreasing_by simp [List.length_drop]; omega

theorem batch_foldl_spec (execChunk : Nat → List Row → Option String) :
    ∀ cs : List (Nat × List Row), ∀ a : Nat, ∀ fb : List FailedBatch,
      cs.foldl
        (fun acc c =>
          match execChunk c.1 c.2 with
          | none => (acc.1 + c.2.length, acc.2)
          | some e => (acc.1, acc.2 ++ [⟨c.1, c.2.length, e⟩]))
        (a, fb) =
      (a + ((cs.filter (fun c => (execChunk c.1 c.2).isNone)).map (fun c => c.2.length)).sum,
       fb ++ cs.filterMap (fun c => (execChunk c.1 c.2).map (fun e => ⟨c.1, c.2.length, e⟩))) := by
  intro cs
  induction cs with
  | nil => intro a fb; simp
  | cons c cs ih =>
    intro a fb
    simp only [List.foldl_cons]
    cases hc : execChunk c.1 c.2 with
    | none =>
      simp only [hc]
      rw [ih]
      simp [hc, List.filter_cons, List.filterMap_cons, Nat.add_assoc]
    | some e =>
      simp only [hc]
      rw [ih]
      simp [hc, List.filter_cons, List.filterMap_cons, List.append_assoc]

set_option maxRecDepth 8000 in
/-- Claim C3: batch insert partitions its input into consecutive chunks of
the clamped chunk size, whose concatenation in order is the input; a chunk
whose unit of work fails is recorded with its start index, size and error
text while processing continues with the next chunk, the report counting all
submitted rows and the rows of the successful chunks; concretely, 250 rows
with chunk size 100 give 3 chunks of sizes 100, 100 and 50, and when only the
chunk starting at index 100 fails the report lists exactly that one failed
chunk, with 250 rows submitted and 150 inserted. -/
theorem C3_batch_isolation (execChunk : Nat → List Row → Option String)
    (records : List Row) (batch_size : Int) :
    ((batchChunks records (clampTo 1000 batch_size).toNat).map Prod.snd).flatten = records
    ∧ batch_insert_records execChunk records batch_size =
        ⟨records.length,
         (((batchChunks records (clampTo 1000 batch_size).toNat).filter
             (fun c => (execChunk c.1 c.2).isNone)).map (fun c => c.2.length)).sum,
         (batchChunks records (clampTo 1000 batch_size).toNat).filterMap
           (fun c => (execChunk c.1 c.2).map (fun e => ⟨c.1, c.2.length, e⟩)),
         (clampTo 1000 batch_size).toNat⟩
    ∧ (batchChunks (List.replicate 250 ([] : Row)) 100).map (fun c => (c.1, c.2.length)) =
        [(0, 100), (100, 100), (200, 50)]
    ∧ batch_insert_records (fun i _ => if i = 100 then some "boom" else none)
        (List.replicate 250 ([] : Row)) 100 = ⟨250, 150, [⟨100, 100, "boom"⟩], 100⟩ := by
  have hbs : 1 ≤ (clampTo 1000 batch_size).toNat := by
    simp only [clampTo]
    omega
  refine ⟨batchChunks_flatten _ hbs records, ?_, by decide, by decide⟩
  simp only [batch_insert_records]
  rw [batch_foldl_spec]
  simp

/-! ### The in operator (claim C4) -/

theorem inPhs_names (paramName : String) (elems : List JVal) :
    inPhs paramName elems.length = (inBinds paramName elems).map (fun b => ":" ++ b.1) := by
  simp only [inPhs, inBinds, List.map_map]
  have hz : ((List.range elems.length).zip elems).map Prod.fst = List.range elems.length :=
    List.map_fst_zip _ _ (by simp)
  calc (List.range elems.length).map (fun j => ":" ++ paramName ++ "_" ++ decStr j)
      = (((List.range elems.length).zip elems).map Prod.fst).map
          (fun j => ":" ++ paramName ++ "_" ++ decStr j) := by rw [hz]
    _ = ((List.range elems.length).zip elems).map
          ((fun j => ":" ++ paramName ++ "_" ++ decStr j) ∘ Prod.fst) := by
        rw [List.map_map]
    _ = ((List.range elems.length).zip elems).map
          ((fun b => ":" ++ b.1) ∘ fun p => (paramName ++ "_" ++ decStr p.1, p.2)) := by
        apply List.map_congr_left
        intro p _
        simp [Function.comp, String.append_assoc]

/-- Claim C4: for every in filter whose value is an N-element list, the
compiler emits one IN-clause whose placeholder list has exactly N entries and
binds exactly N parameters in the parameter map, one per list element, in
list order, the bound names corresponding one to one to the placeholders. -/
theorem C4_in_filter (column : String) (vs : List JVal) (k : Nat) :
    applyOp column (pName k) "in" (.arr vs) =
      .ok ([column ++ " IN (" ++ joinWith "," (inPhs (pName k) vs.length) ++ ")"],
        inBinds (pName k) vs)
    ∧ (inPhs (pName k) vs.length).length = vs.length
    ∧ (inBinds (pName k) vs).length = vs.length
    ∧ (inBinds (pName k) vs).map Prod.snd = vs
    ∧ inPhs (pName k) vs.length = (inBinds (pName k) vs).map (fun b => ":" ++ b.1)
    ∧ compileFilters [(column, .obj [("in", .arr vs)])] ⟨[], [], k⟩ =
        .ok ⟨[column ++ " IN (" ++ joinWith "," (inPhs (pName k) vs.length) ++ ")"],
          inBinds (pName k) vs, k + 1⟩ :=
  ⟨rfl, by simp [inPhs], by simp [inBinds], inBinds_values _ _, inPhs_names _ _, rfl⟩

/-! ### Placeholder naming (claim C6) -/

/-- Claim C6 counterexample: compiling the filter with operator eq on column
Country binds the single placeholder param1, which is not of the form
column_operator_index the claim states (the last conjunct shows the form
checker does accept a name of that shape, so the check is not vacuous). -/
theorem C6_counterexample :
    compileFilters [("Country", JVal.obj [("eq", JVal.str "Germany")])] initComp =
      .ok ⟨["Country = :param1"], [("param1", JVal.str "Germany")], 2⟩
    ∧ specFormName "Country" "eq" "param1" = false
    ∧ specFormName "Country" "eq" "Country_eq_0" = true :=
  ⟨rfl, by decide, by decide⟩

/-- Claim C6 (amended): the filter compiler produces the ordered fragment
list, joined by AND in the WHERE text, plus a parameter map whose placeholder
names are generated deterministically from the running counter as
param-counter, with an element-index suffix for in lists (not as
column_operator_index), so that no two predicates of one compilation share a
placeholder name: the names are pairwise distinct. -/
theorem C6_param_names (filters : List (String × JVal)) (st : CompState)
    (h : compileFilters filters initComp = .ok st) :
    (st.params.map Prod.fst).Nodup
    ∧ (∀ name ∈ st.params.map Prod.fst, ∃ k, 1 ≤ k ∧ k < st.paramCounter ∧
        (name = pName k ∨ ∃ j, name = pInName k j))
    ∧ (st.whereClauses.isEmpty = false →
        advWhereSql st = joinWith " AND " st.whereClauses) := by
  have hini : TagInv initComp := by
    constructor
    · exact List.nodup_nil
    · intro name hname
      simp [initComp] at hname
  have hinv := compileFilters_inv filters initComp st h (by decide) hini
  refine ⟨hinv.1.1, hinv.1.2, ?_⟩
  intro hne
  simp [advWhereSql, hne]

theorem C6_param_names_witness :
    compileFilters demoFilters initComp = .ok demoSt
    ∧ (demoSt.params.map Prod.fst).Nodup :=
  ⟨rfl, (C6_param_names demoFilters demoSt rfl).1⟩

/-! ### Identifier validation (claim C1) -/

/-- Claim C1 counterexample: advanced_search does not validate identifiers:
with the known column set of the Customers table containing only CustomerID
and CompanyName, a filter on the absent column Bogus is still compiled and
its SELECT statement is sent to the engine, instead of the request being
rejected during compilation with no SQL reaching the engine. -/
theorem C1_counterexample :
    (["CustomerID", "CompanyName"].contains "Bogus") = false
    ∧ advSearchStmts "Customers" [("Bogus", JVal.obj [("eq", JVal.str "x")])] none 20 =
        ["SELECT TOP 20 * FROM Customers WHERE Bogus = :param1 "]
    ∧ advSearchStmts "Customers" [("Bogus", JVal.obj [("eq", JVal.str "x")])] none 20 ≠ [] :=
  ⟨by decide, by decide, by decide⟩

/-- Claim C1 (amended): only the mutation path validates identifiers.
safe_insert_record rejects a payload naming any column outside the schema
introspector column set with an explicit invalid-identifier listing and
sends no statement to the engine; advanced_search, by contrast, performs no
identifier validation: whenever its filters compile, the compiled SELECT is
sent to the engine regardless of which identifiers the filters use. -/
theorem C1_identifier_validation (table : String) (schemaCols : List String) (data : Row)
    (validate_only : Bool) (c : String)
    (hs : schemaCols.isEmpty = false)
    (hc : c ∈ data.map Prod.fst) (hmem : schemaCols.contains c = false) :
    (safe_insert_record table schemaCols data validate_only).2 = []
    ∧ (∃ bad, (safe_insert_record table schemaCols data validate_only).1 =
        InsertResult.invalidColumns bad ∧ c ∈ bad)
    ∧ (∀ tbl : String, ∀ filters : List (String × JVal), ∀ sortBy : Option String,
        ∀ lim : Int, ∀ st : CompState, compileFilters filters initComp = .ok st →
        advSearchStmts tbl filters sortBy lim = [advSearchSql tbl st sortBy lim]) := by
  have hnotmem : c ∉ schemaCols := by simpa using hmem
  have hinv : c ∈ (data.map Prod.fst).filter (fun x => !(schemaCols.contains x)) := by
    rw [List.mem_filter]
    exact ⟨hc, by simp [hnotmem]⟩
  have hne : ((data.map Prod.fst).filter (fun x => !(schemaCols.contains x))).isEmpty
      = false := by
    cases hl : (data.map Prod.fst).filter (fun x => !(schemaCols.contains x)) with
    | nil => rw [hl] at hinv; cases hinv
    | cons a as => rfl
  have hres : safe_insert_record table schemaCols data validate_only =
      (InsertResult.invalidColumns
        ((data.map Prod.fst).filter (fun x => !(schemaCols.contains x))), []) := by
    simp only [safe_insert_record]
    rw [hs, hne]
    simp
  refine ⟨?_, ?_, ?_⟩
  · rw [hres]
  · exact ⟨(data.map Prod.fst).filter (fun x => !(schemaCols.contains x)),
      by rw [hres], hinv⟩
  · intro tbl filters sortBy lim st hok
    simp [advSearchStmts, hok]

theorem C1_identifier_validation_witness :
    (["CustomerID"] : List String).isEmpty = false
    ∧ "Bogus" ∈ ([("Bogus", JVal.int 1)] : Row).map Prod.fst
    ∧ (["CustomerID"].contains "Bogus") = false
    ∧ (safe_insert_record "Customers" ["CustomerID"] [("Bogus", JVal.int 1)] false).2 = [] :=
  ⟨rfl, by decide, by decide,
    (C1_identifier_validation "Customers" ["CustomerID"] [("Bogus", JVal.int 1)] false "Bogus"
      rfl (by decide) (by decide)).1⟩

end AzureMcp
